import Mathlib

/-!
# Order-pricing engine: formal model and verification

A shallow embedding of the order-pricing engine described by the repository's
order-calculator documentation: line items are split into discount-eligible and
non-eligible subtotals; a membership discount (5% off the eligible amount) and
the best percentage coupon are mutually exclusive; flat "spend-t-save-d"
coupons stack in ascending-threshold order against the fixed post-exclusive
eligible amount, clamped so the eligible amount never goes below zero.

The implementation file itself is not present in the repository snapshot (only
its documentation is), so every definition below is modelled from the
specification text, as noted in the doc comments.
-/

namespace OrderCalc

/-- Modelled from the spec: a purchased line item (§3 Data Model) of the
missing order-calculator implementation — identifier, unit price (exact
decimal, here `ℚ`), quantity (integer, validated to be ≥ 1), and an
eligibility flag saying whether the line participates in discounts. -/
structure LineItem where
  id : ℕ
  price : ℚ
  quantity : ℤ
  eligible : Bool
deriving Repr, DecidableEq

/-- Modelled from the spec: the buyer (§3) — identifier and membership flag. -/
structure Buyer where
  id : ℕ
  isMember : Bool
deriving Repr, DecidableEq

/-- Modelled from the spec: the two coupon kinds (§3): percentage-off and
flat "spend at least t, save d". -/
inductive CouponType where
  | percentage
  | flatThreshold
deriving Repr, DecidableEq

/-- Whether a coupon kind is the Percentage kind. -/
def CouponType.isPercentage : CouponType → Bool
  | percentage => true
  | flatThreshold => false

/-- Modelled from the spec: a coupon (§3) of the missing implementation.
Field presence depends on the kind, so the kind-specific fields are optional
(mirroring the documented dataclass with `Optional` fields); validation
checks that the fields a kind requires are present. -/
structure Coupon where
  id : ℕ
  ctype : CouponType
  rate : Option ℚ
  threshold : Option ℚ
  amount : Option ℚ
deriving Repr, DecidableEq

/-- Modelled from the spec: a `ValidationError` (§4.1/§7) identifying the
offending entity id and field. -/
structure ValidationError where
  entityId : ℕ
  fieldName : String
deriving Repr, DecidableEq

/-- Derived line subtotal: price × quantity (§3). -/
def LineItem.lineSubtotal (li : LineItem) : ℚ := li.price * (li.quantity : ℚ)

/-- Modelled from the spec: the Subtotal Splitter's eligible subtotal (§4.2) —
sum of subtotals of lines with eligibility = true. -/
def eligibleSubtotal (lis : List LineItem) : ℚ :=
  ((lis.filter (fun li => li.eligible)).map LineItem.lineSubtotal).sum

/-- Modelled from the spec: the Subtotal Splitter's non-eligible subtotal
(§4.2) — sum of subtotals of the remaining lines. -/
def nonEligibleSubtotal (lis : List LineItem) : ℚ :=
  ((lis.filter (fun li => !li.eligible)).map LineItem.lineSubtotal).sum

/-- Modelled from the spec: the order subtotal (§4.2) — sum of all line
subtotals. -/
def orderSubtotal (lis : List LineItem) : ℚ :=
  (lis.map LineItem.lineSubtotal).sum

/-- Helper predicate: the optional field is present and satisfies `P`. -/
def optHolds (o : Option ℚ) (P : ℚ → Prop) : Prop := ∃ x, o = some x ∧ P x

instance (o : Option ℚ) (P : ℚ → Prop) [DecidablePred P] :
    Decidable (optHolds o P) :=
  match o with
  | none => isFalse (by simp [optHolds])
  | some x =>
    if h : P x then isTrue ⟨x, rfl, h⟩ else isFalse (by simp [optHolds, h])

/-- Modelled from the spec: structural validity of a line item (§4.1) —
price is non-negative and quantity at least 1. -/
def LineItem.Valid (li : LineItem) : Prop := 0 ≤ li.price ∧ 1 ≤ li.quantity

instance (li : LineItem) : Decidable li.Valid := by
  unfold LineItem.Valid; infer_instance

/-- Modelled from the spec: structural validity of a coupon (§4.1) — a
Percentage coupon carries a rate in (0,1]; a FlatThreshold coupon carries a
non-negative threshold and a non-negative amount. -/
def Coupon.Valid (c : Coupon) : Prop :=
  if c.ctype = CouponType.percentage then
    optHolds c.rate (fun r => 0 < r ∧ r ≤ 1)
  else
    optHolds c.threshold (fun t => 0 ≤ t) ∧ optHolds c.amount (fun d => 0 ≤ d)

instance (c : Coupon) : Decidable c.Valid := by
  unfold Coupon.Valid; infer_instance

/-- All supplied entities are structurally valid (§4.1). -/
def allValid (lis : List LineItem) (cs : List Coupon) : Prop :=
  (∀ li ∈ lis, li.Valid) ∧ ∀ c ∈ cs, c.Valid

instance (lis : List LineItem) (cs : List Coupon) : Decidable (allValid lis cs) := by
  unfold allValid; infer_instance

/-- Modelled from the spec: entity validation for a line item (§4.1) —
returns the `ValidationError` naming the offending field, or `none`. -/
def validateLineItem (li : LineItem) : Option ValidationError :=
  if li.price < 0 then some ⟨li.id, "price"⟩
  else if li.quantity < 1 then some ⟨li.id, "quantity"⟩
  else none

/-- Modelled from the spec: entity validation for a coupon (§4.1) — a missing
required field or an out-of-range value yields a `ValidationError` naming the
offending field. -/
def validateCoupon (c : Coupon) : Option ValidationError :=
  if c.ctype = CouponType.percentage then
    match c.rate with
    | none => some ⟨c.id, "rate"⟩
    | some r => if 0 < r ∧ r ≤ 1 then none else some ⟨c.id, "rate"⟩
  else
    match c.threshold with
    | none => some ⟨c.id, "threshold"⟩
    | some t =>
      match c.amount with
      | none => some ⟨c.id, "amount"⟩
      | some d =>
        if t < 0 then some ⟨c.id, "threshold"⟩
        else if d < 0 then some ⟨c.id, "amount"⟩
        else none

/-- Modelled from the spec: fail-fast input validation (§4.5/§7) — line items
are checked in order, then coupons in order; the first detected invalid entity
produces the error. -/
def validateAll (lis : List LineItem) (cs : List Coupon) : Option ValidationError :=
  ((lis.filterMap validateLineItem) ++ (cs.filterMap validateCoupon)).head?

/-- Modelled from the spec: the membership saving (§4.3) —
`eligibleSubtotal × 0.05` for members, else 0. -/
def membershipSaving (b : Buyer) (elig : ℚ) : ℚ :=
  if b.isMember then elig * (5 / 100) else 0

/-- Modelled from the spec: a percentage coupon's saving (§4.3) —
`eligibleSubtotal × (1 − rate)`. (Only applied to coupons that carry a rate;
the `getD` default is never reached on validated input.) -/
def percSaving (elig : ℚ) (c : Coupon) : ℚ := elig * (1 - (c.rate.getD 1))

/-- The Percentage coupons among the supplied coupons. -/
def percCoupons (cs : List Coupon) : List Coupon :=
  cs.filter (fun c => c.ctype.isPercentage)

/-- Modelled from the spec: fold selecting the best percentage-coupon
candidate (§4.3) — greatest saving, ties broken by the smallest coupon
identifier for determinism. -/
def bestPercAux (elig : ℚ) : Coupon → List Coupon → Coupon
  | best, [] => best
  | best, c :: rest =>
    if percSaving elig best < percSaving elig c ∨
        (percSaving elig c = percSaving elig best ∧ c.id < best.id) then
      bestPercAux elig c rest
    else
      bestPercAux elig best rest

/-- Modelled from the spec: the best percentage-coupon candidate (§4.3),
`none` when no Percentage coupon is supplied. -/
def bestPercCoupon (elig : ℚ) (cs : List Coupon) : Option Coupon :=
  match percCoupons cs with
  | [] => none
  | c :: rest => some (bestPercAux elig c rest)

/-- The greatest percentage-coupon saving over the supplied coupons, 0 when
none is supplied (§4.3, as quoted by the mutual-exclusion property). -/
def bestPercSaving (elig : ℚ) (cs : List Coupon) : ℚ :=
  (((percCoupons cs).map (percSaving elig)).foldr max 0)

/-- Which exclusive discount was applied: none, the membership discount, or a
percentage coupon (identified by its id), with the saving amount. -/
inductive ExclusiveChoice where
  | noDiscount
  | membership (saving : ℚ)
  | coupon (couponId : ℕ) (saving : ℚ)
deriving Repr, DecidableEq

/-- The monetary amount of the exclusive-stage discount. -/
def ExclusiveChoice.amount : ExclusiveChoice → ℚ
  | .noDiscount => 0
  | .membership s => s
  | .coupon _ s => s

/-- Modelled from the spec: the Exclusive-Discount Selector (§4.3) — applies
at most one of the membership discount and the best percentage coupon; the
strictly larger saving wins, and on an exact tie the coupon is preferred. -/
def exclusiveChoice (b : Buyer) (elig : ℚ) (cs : List Coupon) : ExclusiveChoice :=
  match bestPercCoupon elig cs with
  | none =>
    if b.isMember then .membership (membershipSaving b elig) else .noDiscount
  | some c =>
    if percSaving elig c < membershipSaving b elig then
      .membership (membershipSaving b elig)
    else
      .coupon c.id (percSaving elig c)

/-- A flat "spend-t-save-d" coupon's data, extracted for the Stacking
Engine. -/
structure FlatInfo where
  id : ℕ
  threshold : ℚ
  amount : ℚ
deriving Repr, DecidableEq

/-- The FlatThreshold coupons among the supplied coupons, with their data.
(A FlatThreshold coupon missing a required field never reaches this point on
validated input.) -/
def flatCoupons (cs : List Coupon) : List FlatInfo :=
  cs.filterMap (fun c =>
    match c.ctype, c.threshold, c.amount with
    | CouponType.flatThreshold, some t, some d => some ⟨c.id, t, d⟩
    | _, _, _ => none)

/-- Modelled from the spec: the Stacking Engine's evaluation order (§4.4) —
ascending threshold, ties broken by coupon id. -/
def flatLE (a b : FlatInfo) : Prop :=
  a.threshold < b.threshold ∨ (a.threshold = b.threshold ∧ a.id ≤ b.id)

instance : DecidableRel flatLE := fun a b => by
  unfold flatLE; infer_instance

instance : IsTotal FlatInfo flatLE where
  total a b := by
    unfold flatLE
    rcases lt_trichotomy a.threshold b.threshold with h | h | h
    · exact Or.inl (Or.inl h)
    · rcases Nat.le_total a.id b.id with h2 | h2
      · exact Or.inl (Or.inr ⟨h, h2⟩)
      · exact Or.inr (Or.inr ⟨h.symm, h2⟩)
    · exact Or.inr (Or.inl h)

instance : IsTrans FlatInfo flatLE where
  trans a b c hab hbc := by
    unfold flatLE at *
    rcases hab with h1 | ⟨h1, h1'⟩ <;> rcases hbc with h2 | ⟨h2, h2'⟩
    · exact Or.inl (h1.trans h2)
    · exact Or.inl (h2 ▸ h1)
    · exact Or.inl (h1 ▸ h2)
    · exact Or.inr ⟨h1.trans h2, h1'.trans h2'⟩

/-- Modelled from the spec: sort the flat coupons ascending by threshold,
ties broken by coupon id (§4.4). -/
def sortFlats (l : List FlatInfo) : List FlatInfo := l.insertionSort flatLE

/-- A record of one applied flat coupon: the coupon id and the discount
amount actually granted. -/
structure AppliedFlat where
  id : ℕ
  amount : ℚ
deriving Repr, DecidableEq

/-- Modelled from the spec: the Stacking Engine's loop (§4.4) — each coupon's
qualification is tested against the same fixed base `base`
(= `eligibleAfterExclusive`); a qualifying coupon's discount is clamped to the
remaining eligible balance `rem` so the accumulated flat discounts never drive
the eligible amount below zero. -/
def applyFlatsAux (base : ℚ) : ℚ → List FlatInfo → List AppliedFlat
  | _, [] => []
  | rem, f :: rest =>
    if f.threshold ≤ base then
      ⟨f.id, min f.amount rem⟩ :: applyFlatsAux base (rem - min f.amount rem) rest
    else
      applyFlatsAux base rem rest

/-- Modelled from the spec: the Stacking Engine (§4.4) — collect the
FlatThreshold coupons, sort them ascending by (threshold, id), and apply every
qualifying one against the fixed base, clamped to the remaining balance. -/
def stackFlats (base : ℚ) (cs : List Coupon) : List AppliedFlat :=
  applyFlatsAux base base (sortFlats (flatCoupons cs))

/-- The total flat discount granted by the Stacking Engine. -/
def flatsTotal (applied : List AppliedFlat) : ℚ :=
  (applied.map AppliedFlat.amount).sum

/-- Modelled from the spec: pro-rata attribution of the total discount to an
individual line (§3 Calculation Result, per-line discount attribution):
an eligible line receives `totalDiscount × lineSubtotal ÷ eligibleSubtotal`,
a non-eligible line receives 0. -/
def lineDiscountOf (totalD elig : ℚ) (li : LineItem) : ℚ :=
  if li.eligible then totalD * li.lineSubtotal / elig else 0

/-- A per-line entry of the result: the input line plus its attributed
discount. -/
structure LineEntry where
  item : LineItem
  lineDiscount : ℚ
deriving Repr, DecidableEq

/-- Modelled from the spec: the immutable Calculation Result (§3). -/
structure CalculationResult where
  lines : List LineEntry
  subtotal : ℚ
  eligibleSubtotal : ℚ
  nonEligibleSubtotal : ℚ
  exclusive : ExclusiveChoice
  appliedFlats : List AppliedFlat
  totalDiscount : ℚ
  finalTotal : ℚ
deriving Repr, DecidableEq

/-- Modelled from the spec: the Order Calculator pipeline on validated input
(§4.5) — Subtotal Splitter, then Exclusive-Discount Selector, then Stacking
Engine; `totalDiscount = exclusiveDiscountAmount + flatDiscountTotal` and
`finalTotal = subtotal − totalDiscount`. -/
def calcValid (lis : List LineItem) (b : Buyer) (cs : List Coupon) :
    CalculationResult :=
  let elig := eligibleSubtotal lis
  let ex := exclusiveChoice b elig cs
  let base := elig - ex.amount
  let flats := stackFlats base cs
  let totalD := ex.amount + flatsTotal flats
  { lines := lis.map (fun li => ⟨li, lineDiscountOf totalD elig li⟩)
    subtotal := orderSubtotal lis
    eligibleSubtotal := elig
    nonEligibleSubtotal := nonEligibleSubtotal lis
    exclusive := ex
    appliedFlats := flats
    totalDiscount := totalD
    finalTotal := orderSubtotal lis - totalD }

/-- Modelled from the spec: the public operation (§4.5) —
`calculate(lineItems, buyer, coupons)` validates every entity first and
fails with the first `ValidationError` with no partial result; on success it
runs the calculation pipeline. -/
def calculate (lis : List LineItem) (b : Buyer) (cs : List Coupon) :
    Except ValidationError CalculationResult :=
  match validateAll lis cs with
  | some e => .error e
  | none => .ok (calcValid lis b cs)

/-- Modelled from the spec: rounding to currency precision (§5) — 2
fractional digits, round-half-up. -/
def roundHalfUp2 (q : ℚ) : ℚ := ((⌊q * 100 + 1 / 2⌋ : ℤ) : ℚ) / 100

/-- The final reported amounts (§5): each reported amount is the rounding of
the corresponding exact amount. -/
structure ReportedAmounts where
  subtotal : ℚ
  eligibleSubtotal : ℚ
  nonEligibleSubtotal : ℚ
  exclusiveAmount : ℚ
  flatAmounts : List (ℕ × ℚ)
  totalDiscount : ℚ
  finalTotal : ℚ
deriving Repr, DecidableEq

/-- Modelled from the spec: the reporting step (§5) — rounding to currency
precision is applied exactly once, to the final reported amounts, never to
intermediate sums. -/
def reportOf (r : CalculationResult) : ReportedAmounts :=
  { subtotal := roundHalfUp2 r.subtotal
    eligibleSubtotal := roundHalfUp2 r.eligibleSubtotal
    nonEligibleSubtotal := roundHalfUp2 r.nonEligibleSubtotal
    exclusiveAmount := roundHalfUp2 r.exclusive.amount
    flatAmounts := r.appliedFlats.map (fun a => (a.id, roundHalfUp2 a.amount))
    totalDiscount := roundHalfUp2 r.totalDiscount
    finalTotal := roundHalfUp2 r.finalTotal }

/-- Toggle a line item's eligibility flag, all else unchanged. -/
def toggleEligibility (li : LineItem) : LineItem :=
  { li with eligible := !li.eligible }

end OrderCalc

namespace OrderCalc

/-- The flat coupons, in evaluation order, that qualify against the fixed
base `eligibleAfterExclusive` (§4.4). -/
def qualifyingFlats (base : ℚ) (cs : List Coupon) : List FlatInfo :=
  (sortFlats (flatCoupons cs)).filter (fun f => f.threshold ≤ base)

/-! ## Helper lemmas -/

theorem lineSubtotal_nonneg {li : LineItem} (h : li.Valid) : 0 ≤ li.lineSubtotal := by
  rcases h with ⟨hp, hq⟩
  have hq' : (0 : ℚ) ≤ (li.quantity : ℚ) := by exact_mod_cast hq.trans' (by norm_num)
  exact mul_nonneg hp hq'

theorem eligibleSubtotal_nonneg {lis : List LineItem} (h : ∀ li ∈ lis, li.Valid) :
    0 ≤ eligibleSubtotal lis := by
  apply List.sum_nonneg
  intro x hx
  rcases List.mem_map.mp hx with ⟨li, hli, rfl⟩
  exact lineSubtotal_nonneg (h li (List.mem_of_mem_filter hli))

theorem nonEligibleSubtotal_nonneg {lis : List LineItem} (h : ∀ li ∈ lis, li.Valid) :
    0 ≤ nonEligibleSubtotal lis := by
  apply List.sum_nonneg
  intro x hx
  rcases List.mem_map.mp hx with ⟨li, hli, rfl⟩
  exact lineSubtotal_nonneg (h li (List.mem_of_mem_filter hli))

theorem subtotal_split (lis : List LineItem) :
    orderSubtotal lis = eligibleSubtotal lis + nonEligibleSubtotal lis := by
  induction lis with
  | nil => simp [orderSubtotal, eligibleSubtotal, nonEligibleSubtotal]
  | cons li rest ih =>
    by_cases h : li.eligible <;>
      simp [orderSubtotal, eligibleSubtotal, nonEligibleSubtotal, h,
        List.filter_cons] at ih ⊢ <;> linarith

theorem bestPercAux_spec (e : ℚ) (best : Coupon) (l : List Coupon) :
    bestPercAux e best l ∈ best :: l ∧
      ∀ x ∈ best :: l,
        percSaving e x < percSaving e (bestPercAux e best l) ∨
          (percSaving e x = percSaving e (bestPercAux e best l) ∧
            (bestPercAux e best l).id ≤ x.id) := by
  induction l generalizing best with
  | nil =>
    refine ⟨by simp [bestPercAux], ?_⟩
    intro x hx
    rcases List.mem_singleton.mp hx with rfl
    exact Or.inr ⟨rfl, le_refl _⟩
  | cons c rest ih =>
    by_cases hcond : percSaving e best < percSaving e c ∨
        (percSaving e c = percSaving e best ∧ c.id < best.id)
    · have heq : bestPercAux e best (c :: rest) = bestPercAux e c rest := by
        simp [bestPercAux, hcond]
      have hrec := ih c
      rw [heq]
      refine ⟨List.mem_cons_of_mem _ hrec.1, ?_⟩
      intro x hx
      rcases List.mem_cons.mp hx with h | hx'
      · subst h
        have hc := hrec.2 c (List.mem_cons_self _ _)
        rcases hcond with h1 | ⟨h1, h1'⟩
        · rcases hc with h2 | ⟨h2, h2'⟩
          · exact Or.inl (h1.trans h2)
          · exact Or.inl (h1.trans_eq h2)
        · rcases hc with h2 | ⟨h2, h2'⟩
          · exact Or.inl (h1.symm.trans_lt h2)
          · exact Or.inr ⟨h1.symm.trans h2, h2'.trans h1'.le⟩
      · exact hrec.2 x hx'
    · have heq : bestPercAux e best (c :: rest) = bestPercAux e best rest := by
        simp [bestPercAux, hcond]
      have hrec := ih best
      rw [heq]
      push_neg at hcond
      constructor
      · rcases List.mem_cons.mp hrec.1 with h | h
        · rw [h]
          exact List.mem_cons_self _ _
        · exact List.mem_cons_of_mem _ (List.mem_cons_of_mem _ h)
      · intro x hx
        rcases List.mem_cons.mp hx with h | hx'
        · subst h
          exact hrec.2 x (List.mem_cons_self _ _)
        · rcases List.mem_cons.mp hx' with h | hx''
          · subst h
            have hb := hrec.2 best (List.mem_cons_self _ _)
            rcases lt_or_eq_of_le hcond.1 with h1' | h1'
            · rcases hb with h2 | ⟨h2, h2'⟩
              · exact Or.inl (h1'.trans h2)
              · exact Or.inl (h1'.trans_eq h2)
            · have hid := hcond.2 h1'
              rcases hb with h2 | ⟨h2, h2'⟩
              · exact Or.inl (h1'.trans_lt h2)
              · exact Or.inr ⟨h1'.trans h2, h2'.trans hid⟩
          · exact hrec.2 x (List.mem_cons_of_mem _ hx'')

theorem bestPercCoupon_none_iff (e : ℚ) (cs : List Coupon) :
    bestPercCoupon e cs = none ↔ percCoupons cs = [] := by
  unfold bestPercCoupon
  cases percCoupons cs <;> simp

theorem bestPercCoupon_spec {e : ℚ} {cs : List Coupon} {c : Coupon}
    (h : bestPercCoupon e cs = some c) :
    c ∈ percCoupons cs ∧
      ∀ x ∈ percCoupons cs,
        percSaving e x ≤ percSaving e c ∧
          (percSaving e x = percSaving e c → c.id ≤ x.id) := by
  unfold bestPercCoupon at h
  rcases hl : percCoupons cs with _ | ⟨c0, rest⟩
  · rw [hl] at h; exact absurd h (by simp)
  · rw [hl] at h
    have hc : c = bestPercAux e c0 rest := by
      have := h
      simp only [Option.some.injEq] at this
      exact this.symm
    have hspec := bestPercAux_spec e c0 rest
    rw [← hc] at hspec
    refine ⟨hspec.1, ?_⟩
    intro x hx
    have hx' : x ∈ c0 :: rest := hx
    have := hspec.2 x hx'
    rcases this with h2 | ⟨h2, h2'⟩
    · exact ⟨h2.le, fun heq => absurd heq (ne_of_lt h2)⟩
    · exact ⟨h2.le, fun _ => h2'⟩

theorem foldr_max_nonneg (l : List ℚ) : 0 ≤ l.foldr max 0 := by
  induction l with
  | nil => simp
  | cons x rest ih => simp only [List.foldr_cons]; exact ih.trans (le_max_right _ _)

theorem foldr_max_le {l : List ℚ} {s : ℚ} (h : ∀ x ∈ l, x ≤ s) :
    l.foldr max 0 ≤ max 0 s := by
  induction l with
  | nil => simp
  | cons x rest ih =>
    simp only [List.foldr_cons]
    have hx := h x (List.mem_cons_self _ _)
    have hr := ih (fun y hy => h y (List.mem_cons_of_mem _ hy))
    exact max_le (hx.trans (le_max_right _ _)) hr

theorem foldr_max_eq {l : List ℚ} {s : ℚ} (hmem : s ∈ l) (hub : ∀ x ∈ l, x ≤ s) :
    l.foldr max 0 = max 0 s := by
  induction l with
  | nil => exact absurd hmem (List.not_mem_nil _)
  | cons x rest ih =>
    simp only [List.foldr_cons]
    rcases List.mem_cons.mp hmem with rfl | hmem'
    · have hle := foldr_max_le (fun y hy => hub y (List.mem_cons_of_mem _ hy))
      have hnn := foldr_max_nonneg rest
      apply le_antisymm
      · exact max_le (le_max_right 0 s) hle
      · exact max_le (hnn.trans (le_max_right s _)) (le_max_left s _)
    · have hx := hub x (List.mem_cons_self _ _)
      rw [ih hmem' (fun y hy => hub y (List.mem_cons_of_mem _ hy))]
      apply le_antisymm
      · exact max_le (hx.trans (le_max_right 0 s)) le_rfl
      · exact le_max_right x _

theorem mem_percCoupons {c : Coupon} {cs : List Coupon} (h : c ∈ percCoupons cs) :
    c ∈ cs ∧ c.ctype = CouponType.percentage := by
  have hm := List.mem_filter.mp h
  refine ⟨hm.1, ?_⟩
  rcases hty : c.ctype with _ | _
  · rfl
  · have := hm.2
    rw [hty] at this
    exact absurd this (by simp [CouponType.isPercentage])

theorem percSaving_bounds {c : Coupon} {e : ℚ} (hc : c.Valid)
    (hty : c.ctype = CouponType.percentage) (he : 0 ≤ e) :
    0 ≤ percSaving e c ∧ percSaving e c ≤ e := by
  unfold Coupon.Valid at hc
  rw [if_pos hty] at hc
  obtain ⟨r, hr, hr1, hr2⟩ := hc
  unfold percSaving
  rw [hr]
  simp only [Option.getD_some]
  constructor
  · exact mul_nonneg he (by linarith)
  · calc e * (1 - r) ≤ e * 1 := mul_le_mul_of_nonneg_left (by linarith) he
      _ = e := mul_one e

theorem membershipSaving_bounds {b : Buyer} {e : ℚ} (he : 0 ≤ e) :
    0 ≤ membershipSaving b e ∧ membershipSaving b e ≤ e := by
  unfold membershipSaving
  split
  · constructor
    · exact mul_nonneg he (by norm_num)
    · calc e * (5 / 100) ≤ e * 1 := mul_le_mul_of_nonneg_left (by norm_num) he
        _ = e := mul_one e
  · exact ⟨le_refl 0, he⟩

theorem bestPercSaving_eq_of_best {e : ℚ} {cs : List Coupon} {c : Coupon}
    (h : bestPercCoupon e cs = some c) :
    bestPercSaving e cs = max 0 (percSaving e c) := by
  have hspec := bestPercCoupon_spec h
  unfold bestPercSaving
  apply foldr_max_eq
  · exact List.mem_map_of_mem _ hspec.1
  · intro x hx
    rcases List.mem_map.mp hx with ⟨y, hy, rfl⟩
    exact (hspec.2 y hy).1

theorem bestPercSaving_bounds {e : ℚ} {cs : List Coupon}
    (hC : ∀ c ∈ cs, c.Valid) (he : 0 ≤ e) :
    0 ≤ bestPercSaving e cs ∧ bestPercSaving e cs ≤ e := by
  refine ⟨foldr_max_nonneg _, ?_⟩
  rcases h : bestPercCoupon e cs with _ | c
  · have := (bestPercCoupon_none_iff e cs).mp h
    simp [bestPercSaving, this]
    exact he
  · have hmem := mem_percCoupons (bestPercCoupon_spec h).1
    have hb := percSaving_bounds (hC c hmem.1) hmem.2 he
    rw [bestPercSaving_eq_of_best h]
    exact max_le he hb.2

theorem exclusiveChoice_amount_eq_max {b : Buyer} {e : ℚ} {cs : List Coupon}
    (hC : ∀ c ∈ cs, c.Valid) (he : 0 ≤ e) :
    (exclusiveChoice b e cs).amount =
      max (membershipSaving b e) (bestPercSaving e cs) := by
  rcases h : bestPercCoupon e cs with _ | c
  · have hnil := (bestPercCoupon_none_iff e cs).mp h
    have hbs : bestPercSaving e cs = 0 := by simp [bestPercSaving, hnil]
    rw [hbs]
    unfold exclusiveChoice
    rw [h]
    rcases hm : b.isMember with _ | _
    · have : membershipSaving b e = 0 := by simp [membershipSaving, hm]
      simp [hm, ExclusiveChoice.amount, this]
    · simp only [hm, if_true, ExclusiveChoice.amount]
      exact (max_eq_left (membershipSaving_bounds he).1).symm
  · have hmem := mem_percCoupons (bestPercCoupon_spec h).1
    have hb := percSaving_bounds (hC c hmem.1) hmem.2 he
    have hbs : bestPercSaving e cs = percSaving e c := by
      rw [bestPercSaving_eq_of_best h]
      exact max_eq_right hb.1
    rw [hbs]
    unfold exclusiveChoice
    rw [h]
    dsimp only
    by_cases hlt : percSaving e c < membershipSaving b e
    · rw [if_pos hlt]
      simp only [ExclusiveChoice.amount]
      exact (max_eq_left hlt.le).symm
    · rw [if_neg hlt]
      simp only [ExclusiveChoice.amount]
      exact (max_eq_right (not_lt.mp hlt)).symm

theorem exclusive_amount_bounds {b : Buyer} {e : ℚ} {cs : List Coupon}
    (hC : ∀ c ∈ cs, c.Valid) (he : 0 ≤ e) :
    0 ≤ (exclusiveChoice b e cs).amount ∧ (exclusiveChoice b e cs).amount ≤ e := by
  rw [exclusiveChoice_amount_eq_max hC he]
  constructor
  · exact (membershipSaving_bounds he).1.trans (le_max_left _ _)
  · exact max_le (membershipSaving_bounds he).2 (bestPercSaving_bounds hC he).2

theorem flatCoupons_valid {cs : List Coupon} (hC : ∀ c ∈ cs, c.Valid) :
    ∀ f ∈ flatCoupons cs, 0 ≤ f.threshold ∧ 0 ≤ f.amount := by
  intro f hf
  rcases List.mem_filterMap.mp hf with ⟨c, hc, heq⟩
  have hv := hC c hc
  unfold Coupon.Valid at hv
  rcases hty : c.ctype with _ | _ <;>
    rcases ht : c.threshold with _ | t <;>
    rcases ha : c.amount with _ | d <;>
    simp only [hty, ht, ha, Option.some.injEq, reduceCtorEq] at heq
  rw [if_neg (by simp [hty])] at hv
  obtain ⟨⟨t2, ht2, htp⟩, ⟨d2, hd2, hdp⟩⟩ := hv
  rw [ht] at ht2
  rw [ha] at hd2
  obtain rfl : t = t2 := by injection ht2
  obtain rfl : d = d2 := by injection hd2
  rw [← heq]
  exact ⟨htp, hdp⟩

theorem sortFlats_perm (l : List FlatInfo) : (sortFlats l).Perm l :=
  List.perm_insertionSort flatLE l

theorem sortFlats_sorted (l : List FlatInfo) : List.Sorted flatLE (sortFlats l) :=
  List.sorted_insertionSort flatLE l

theorem filtered_amount_sum_nonneg {l : List FlatInfo} {q : FlatInfo → Bool}
    (hA : ∀ f ∈ l, 0 ≤ f.amount) :
    0 ≤ ((l.filter q).map FlatInfo.amount).sum := by
  apply List.sum_nonneg
  intro x hx
  rcases List.mem_map.mp hx with ⟨f, hf, rfl⟩
  exact hA f (List.mem_of_mem_filter hf)

theorem min_add_min_sub {a rem S : ℚ} (ha : 0 ≤ a) (hrem : 0 ≤ rem) (hS : 0 ≤ S) :
    min a rem + min (rem - min a rem) S = min rem (a + S) := by
  simp only [min_def]
  split_ifs <;> linarith

theorem applyFlatsAux_ids (base : ℚ) (rem : ℚ) (l : List FlatInfo) :
    (applyFlatsAux base rem l).map AppliedFlat.id =
      ((l.filter (fun f => f.threshold ≤ base)).map FlatInfo.id) := by
  induction l generalizing rem with
  | nil => simp [applyFlatsAux]
  | cons f rest ih =>
    by_cases h : f.threshold ≤ base <;>
      simp [applyFlatsAux, h, List.filter_cons, ih]

theorem applyFlatsAux_total {base rem : ℚ} {l : List FlatInfo} (hrem : 0 ≤ rem)
    (hA : ∀ f ∈ l, 0 ≤ f.amount) :
    flatsTotal (applyFlatsAux base rem l) =
      min rem (((l.filter (fun f => f.threshold ≤ base)).map FlatInfo.amount).sum) := by
  induction l generalizing rem with
  | nil => simp [applyFlatsAux, flatsTotal, min_eq_right hrem]
  | cons f rest ih =>
    have hA' : ∀ g ∈ rest, 0 ≤ g.amount := fun g hg => hA g (List.mem_cons_of_mem _ hg)
    have ha : 0 ≤ f.amount := hA f (List.mem_cons_self _ _)
    by_cases h : f.threshold ≤ base
    · have hmin : min f.amount rem ≤ rem := min_le_right _ _
      have hrem' : 0 ≤ rem - min f.amount rem := by linarith
      have hrec := ih hrem' hA'
      have hS : 0 ≤ ((rest.filter (fun g => g.threshold ≤ base)).map FlatInfo.amount).sum :=
        filtered_amount_sum_nonneg hA'
      simp only [flatsTotal] at hrec
      simp only [applyFlatsAux, List.filter_cons, decide_eq_true_eq, if_pos h,
        flatsTotal, List.map_cons, List.sum_cons]
      rw [hrec]
      exact min_add_min_sub ha hrem hS
    · simp only [applyFlatsAux, List.filter_cons, decide_eq_true_eq, if_neg h]
      exact ih hrem hA'

theorem applyFlatsAux_noclamp {base rem : ℚ} {l : List FlatInfo}
    (hA : ∀ f ∈ l, 0 ≤ f.amount)
    (hsum : ((l.filter (fun f => f.threshold ≤ base)).map FlatInfo.amount).sum ≤ rem) :
    applyFlatsAux base rem l =
      (l.filter (fun f => f.threshold ≤ base)).map (fun f => AppliedFlat.mk f.id f.amount) := by
  induction l generalizing rem with
  | nil => simp [applyFlatsAux]
  | cons f rest ih =>
    have hA' : ∀ g ∈ rest, 0 ≤ g.amount := fun g hg => hA g (List.mem_cons_of_mem _ hg)
    have ha : 0 ≤ f.amount := hA f (List.mem_cons_self _ _)
    have hS : 0 ≤ ((rest.filter (fun g => g.threshold ≤ base)).map FlatInfo.amount).sum :=
      filtered_amount_sum_nonneg hA'
    by_cases h : f.threshold ≤ base
    · rw [List.filter_cons, if_pos (by simpa using h)] at hsum ⊢
      simp only [List.map_cons, List.sum_cons] at hsum
      have hle : f.amount ≤ rem := by linarith
      simp only [applyFlatsAux, if_pos h, min_eq_left hle, List.map_cons]
      rw [ih hA' (by linarith)]
    · rw [List.filter_cons, if_neg (by simpa using h)] at hsum ⊢
      simp only [applyFlatsAux, if_neg h]
      exact ih hA' hsum

theorem applyFlatsAux_nonneg {base rem : ℚ} {l : List FlatInfo} (hrem : 0 ≤ rem)
    (hA : ∀ f ∈ l, 0 ≤ f.amount) :
    ∀ x ∈ applyFlatsAux base rem l, 0 ≤ x.amount := by
  induction l generalizing rem with
  | nil => simp [applyFlatsAux]
  | cons f rest ih =>
    have hA' : ∀ g ∈ rest, 0 ≤ g.amount := fun g hg => hA g (List.mem_cons_of_mem _ hg)
    have ha : 0 ≤ f.amount := hA f (List.mem_cons_self _ _)
    by_cases h : f.threshold ≤ base
    · simp only [applyFlatsAux, if_pos h]
      intro x hx
      rcases List.mem_cons.mp hx with rfl | hx'
      · exact le_min ha hrem
      · exact ih (by
          have : min f.amount rem ≤ rem := min_le_right _ _
          linarith) hA' x hx'
    · simp only [applyFlatsAux, if_neg h]
      exact ih hrem hA'

theorem applyFlatsAux_filter (base rem : ℚ) (l : List FlatInfo) :
    applyFlatsAux base rem (l.filter (fun f => f.threshold ≤ base)) =
      applyFlatsAux base rem l := by
  induction l generalizing rem with
  | nil => simp
  | cons f rest ih =>
    by_cases h : f.threshold ≤ base
    · rw [List.filter_cons, if_pos (by simpa using h)]
      simp only [applyFlatsAux, if_pos h]
      rw [ih]
    · rw [List.filter_cons, if_neg (by simpa using h)]
      simp only [applyFlatsAux, if_neg h]
      rw [ih]

theorem calcValid_subtotal (lis : List LineItem) (b : Buyer) (cs : List Coupon) :
    (calcValid lis b cs).subtotal = orderSubtotal lis := rfl

theorem calcValid_elig (lis : List LineItem) (b : Buyer) (cs : List Coupon) :
    (calcValid lis b cs).eligibleSubtotal = eligibleSubtotal lis := rfl

theorem calcValid_nonElig (lis : List LineItem) (b : Buyer) (cs : List Coupon) :
    (calcValid lis b cs).nonEligibleSubtotal = nonEligibleSubtotal lis := rfl

theorem calcValid_exclusive (lis : List LineItem) (b : Buyer) (cs : List Coupon) :
    (calcValid lis b cs).exclusive = exclusiveChoice b (eligibleSubtotal lis) cs := rfl

theorem calcValid_appliedFlats (lis : List LineItem) (b : Buyer) (cs : List Coupon) :
    (calcValid lis b cs).appliedFlats =
      stackFlats (eligibleSubtotal lis -
        (exclusiveChoice b (eligibleSubtotal lis) cs).amount) cs := rfl

theorem calcValid_totalDiscount (lis : List LineItem) (b : Buyer) (cs : List Coupon) :
    (calcValid lis b cs).totalDiscount =
      (exclusiveChoice b (eligibleSubtotal lis) cs).amount +
        flatsTotal (stackFlats (eligibleSubtotal lis -
          (exclusiveChoice b (eligibleSubtotal lis) cs).amount) cs) := rfl

theorem calcValid_finalTotal (lis : List LineItem) (b : Buyer) (cs : List Coupon) :
    (calcValid lis b cs).finalTotal =
      orderSubtotal lis - (calcValid lis b cs).totalDiscount := rfl

theorem calcValid_lines (lis : List LineItem) (b : Buyer) (cs : List Coupon) :
    (calcValid lis b cs).lines = lis.map (fun li =>
      LineEntry.mk li (lineDiscountOf (calcValid lis b cs).totalDiscount
        (eligibleSubtotal lis) li)) := rfl

theorem stackFlats_total_eq {base : ℚ} {cs : List Coupon} (hbase : 0 ≤ base)
    (hC : ∀ c ∈ cs, c.Valid) :
    flatsTotal (stackFlats base cs) =
      min base ((((sortFlats (flatCoupons cs)).filter
        (fun f => f.threshold ≤ base)).map FlatInfo.amount).sum) := by
  unfold stackFlats
  apply applyFlatsAux_total hbase
  intro f hf
  exact (flatCoupons_valid hC f ((sortFlats_perm _).mem_iff.mp hf)).2

theorem flatsTotal_bounds {base : ℚ} {cs : List Coupon} (hbase : 0 ≤ base)
    (hC : ∀ c ∈ cs, c.Valid) :
    0 ≤ flatsTotal (stackFlats base cs) ∧ flatsTotal (stackFlats base cs) ≤ base := by
  rw [stackFlats_total_eq hbase hC]
  constructor
  · apply le_min hbase
    apply filtered_amount_sum_nonneg
    intro f hf
    exact (flatCoupons_valid hC f ((sortFlats_perm _).mem_iff.mp hf)).2
  · exact min_le_left _ _

theorem validateLineItem_eq_none_iff (li : LineItem) :
    validateLineItem li = none ↔ li.Valid := by
  unfold validateLineItem
  split_ifs with h1 h2
  · simp only [reduceCtorEq, false_iff]
    intro hv
    exact absurd h1 (not_lt.mpr hv.1)
  · simp only [reduceCtorEq, false_iff]
    intro hv
    exact absurd h2 (not_lt.mpr hv.2)
  · simp only [true_iff]
    exact ⟨not_lt.mp h1, not_lt.mp h2⟩

theorem validateLineItem_some {li : LineItem} {e : ValidationError}
    (h : validateLineItem li = some e) : ¬li.Valid ∧ e.entityId = li.id := by
  unfold validateLineItem at h
  split_ifs at h with h1 h2
  · refine ⟨fun hv => absurd h1 (not_lt.mpr hv.1), ?_⟩
    injection h with h'
    rw [← h']
  · refine ⟨fun hv => absurd h2 (not_lt.mpr hv.2), ?_⟩
    injection h with h'
    rw [← h']

theorem validateCoupon_eq_none_iff (c : Coupon) :
    validateCoupon c = none ↔ c.Valid := by
  unfold validateCoupon Coupon.Valid
  by_cases hty : c.ctype = CouponType.percentage
  · rw [if_pos hty, if_pos hty]
    rcases hr : c.rate with _ | r
    · simp [optHolds]
    · dsimp only
      split_ifs with h
      · simp [optHolds, h]
      · simp only [reduceCtorEq, false_iff]
        intro hv
        obtain ⟨x, hx, hx'⟩ := hv
        injection hx with hx
        exact h (hx ▸ hx')
  · rw [if_neg hty, if_neg hty]
    rcases ht : c.threshold with _ | t
    · simp [optHolds]
    · rcases ha : c.amount with _ | d
      · simp [optHolds]
      · dsimp only
        split_ifs with h1 h2
        · simp only [reduceCtorEq, false_iff]
          rintro ⟨⟨x, hx, hx'⟩, -⟩
          injection hx with hx
          exact absurd h1 (not_lt.mpr (hx ▸ hx'))
        · simp only [reduceCtorEq, false_iff]
          rintro ⟨-, ⟨x, hx, hx'⟩⟩
          injection hx with hx
          exact absurd h2 (not_lt.mpr (hx ▸ hx'))
        · simp only [true_iff]
          exact ⟨⟨t, rfl, not_lt.mp h1⟩, ⟨d, rfl, not_lt.mp h2⟩⟩

theorem validateCoupon_some {c : Coupon} {e : ValidationError}
    (h : validateCoupon c = some e) : ¬c.Valid ∧ e.entityId = c.id := by
  have hval : ¬c.Valid := by
    intro hv
    rw [(validateCoupon_eq_none_iff c).mpr hv] at h
    exact absurd h (by simp)
  refine ⟨hval, ?_⟩
  unfold validateCoupon at h
  by_cases hty : c.ctype = CouponType.percentage
  · rw [if_pos hty] at h
    rcases hr : c.rate with _ | r <;> rw [hr] at h
    · injection h with h'
      rw [← h']
    · dsimp only at h
      split_ifs at h
      injection h with h'
      rw [← h']
  · rw [if_neg hty] at h
    rcases ht : c.threshold with _ | t <;> rw [ht] at h
    · injection h with h'
      rw [← h']
    · rcases ha : c.amount with _ | d <;> rw [ha] at h
      · injection h with h'
        rw [← h']
      · dsimp only at h
        split_ifs at h <;>
          (injection h with h'
           rw [← h'])

theorem validateAll_eq_none_iff (lis : List LineItem) (cs : List Coupon) :
    validateAll lis cs = none ↔ allValid lis cs := by
  unfold validateAll allValid
  rw [List.head?_eq_none_iff, List.append_eq_nil,
    List.filterMap_eq_nil_iff, List.filterMap_eq_nil_iff]
  constructor
  · rintro ⟨h1, h2⟩
    exact ⟨fun li hli => (validateLineItem_eq_none_iff li).mp (h1 li hli),
      fun c hc => (validateCoupon_eq_none_iff c).mp (h2 c hc)⟩
  · rintro ⟨h1, h2⟩
    exact ⟨fun li hli => (validateLineItem_eq_none_iff li).mpr (h1 li hli),
      fun c hc => (validateCoupon_eq_none_iff c).mpr (h2 c hc)⟩

theorem eligibleSubtotal_append (l1 l2 : List LineItem) :
    eligibleSubtotal (l1 ++ l2) = eligibleSubtotal l1 + eligibleSubtotal l2 := by
  simp [eligibleSubtotal, List.filter_append]

theorem nonEligibleSubtotal_append (l1 l2 : List LineItem) :
    nonEligibleSubtotal (l1 ++ l2) = nonEligibleSubtotal l1 + nonEligibleSubtotal l2 := by
  simp [nonEligibleSubtotal, List.filter_append]

theorem orderSubtotal_append (l1 l2 : List LineItem) :
    orderSubtotal (l1 ++ l2) = orderSubtotal l1 + orderSubtotal l2 := by
  simp [orderSubtotal]

theorem eligibleSubtotal_cons (li : LineItem) (rest : List LineItem) :
    eligibleSubtotal (li :: rest) =
      (if li.eligible then li.lineSubtotal else 0) + eligibleSubtotal rest := by
  rcases h : li.eligible with _ | _ <;>
    simp [eligibleSubtotal, List.filter_cons, h]

theorem nonEligibleSubtotal_cons (li : LineItem) (rest : List LineItem) :
    nonEligibleSubtotal (li :: rest) =
      (if li.eligible then 0 else li.lineSubtotal) + nonEligibleSubtotal rest := by
  rcases h : li.eligible with _ | _ <;>
    simp [nonEligibleSubtotal, List.filter_cons, h]

theorem orderSubtotal_cons (li : LineItem) (rest : List LineItem) :
    orderSubtotal (li :: rest) = li.lineSubtotal + orderSubtotal rest := by
  simp [orderSubtotal]

theorem toggleEligibility_lineSubtotal (li : LineItem) :
    (toggleEligibility li).lineSubtotal = li.lineSubtotal := rfl

theorem sum_lineDiscountOf (t e : ℚ) (lis : List LineItem) :
    (lis.map (fun li => lineDiscountOf t e li)).sum = t * eligibleSubtotal lis / e := by
  induction lis with
  | nil => simp [eligibleSubtotal]
  | cons li rest ih =>
    rw [List.map_cons, List.sum_cons, ih, eligibleSubtotal_cons]
    rcases h : li.eligible with _ | _
    · simp [lineDiscountOf, h]
    · simp only [lineDiscountOf, h, if_true]
      ring

theorem totalDiscount_elig_zero {lis : List LineItem} {b : Buyer} {cs : List Coupon}
    (hC : ∀ c ∈ cs, c.Valid) (h0 : eligibleSubtotal lis = 0) :
    (calcValid lis b cs).totalDiscount = 0 := by
  have he : (0 : ℚ) ≤ eligibleSubtotal lis := h0.ge
  have hex := exclusive_amount_bounds (b := b) hC he
  have hex0 : (exclusiveChoice b (eligibleSubtotal lis) cs).amount = 0 :=
    le_antisymm (h0 ▸ hex.2) hex.1
  have hbase : (0 : ℚ) ≤ eligibleSubtotal lis -
      (exclusiveChoice b (eligibleSubtotal lis) cs).amount := by
    linarith [hex.2]
  have hft := flatsTotal_bounds hbase hC
  have hft0 : flatsTotal (stackFlats (eligibleSubtotal lis -
      (exclusiveChoice b (eligibleSubtotal lis) cs).amount) cs) = 0 := by
    apply le_antisymm _ hft.1
    linarith [hft.2]
  rw [calcValid_totalDiscount]
  linarith [hex0, hft0]

/-! ## Claim theorems -/

/-- Claim C1: for every valid input, the exclusive-stage contribution to
`totalDiscount` equals `max(membershipSaving, bestPercentageCouponSaving)`
(membership saving is `eligibleSubtotal × 0.05` for members else 0; the best
percentage saving is the greatest `eligibleSubtotal × (1 − rate)` over the
supplied Percentage coupons, 0 if none), `totalDiscount` is that exclusive
amount plus the flat-coupon total, and the exclusive amount is never the sum
of the two savings: at most one of them contributes. -/
theorem C1_mutual_exclusion (lis : List LineItem) (b : Buyer) (cs : List Coupon)
    (hL : ∀ li ∈ lis, li.Valid) (hC : ∀ c ∈ cs, c.Valid) :
    (calcValid lis b cs).exclusive.amount =
        max (membershipSaving b (eligibleSubtotal lis))
          (bestPercSaving (eligibleSubtotal lis) cs) ∧
      (calcValid lis b cs).totalDiscount =
        (calcValid lis b cs).exclusive.amount +
          flatsTotal (calcValid lis b cs).appliedFlats ∧
      (0 < membershipSaving b (eligibleSubtotal lis) →
        0 < bestPercSaving (eligibleSubtotal lis) cs →
        (calcValid lis b cs).exclusive.amount <
          membershipSaving b (eligibleSubtotal lis) +
            bestPercSaving (eligibleSubtotal lis) cs) := by
  have he := eligibleSubtotal_nonneg hL
  have h1 : (calcValid lis b cs).exclusive.amount =
      max (membershipSaving b (eligibleSubtotal lis))
        (bestPercSaving (eligibleSubtotal lis) cs) := by
    rw [calcValid_exclusive]
    exact exclusiveChoice_amount_eq_max hC he
  refine ⟨h1, rfl, ?_⟩
  intro hm hb
  rw [h1]
  rcases max_cases (membershipSaving b (eligibleSubtotal lis))
      (bestPercSaving (eligibleSubtotal lis) cs) with ⟨h2, _⟩ | ⟨h2, _⟩ <;>
    rw [h2] <;> linarith

/-- Witness for C1 at a concrete valid input: one eligible 100-unit line, a
member buyer, and one 0.8-rate percentage coupon (membership saving 5, coupon
saving 20, exclusive amount 20 = max). -/
theorem C1_mutual_exclusion_witness :
    (∀ li ∈ [LineItem.mk 1 100 1 true], li.Valid) ∧
      (∀ c ∈ [Coupon.mk 10 CouponType.percentage (some (4 / 5)) none none], c.Valid) ∧
      (calcValid [LineItem.mk 1 100 1 true] (Buyer.mk 1 true)
          [Coupon.mk 10 CouponType.percentage (some (4 / 5)) none none]).exclusive.amount =
        max (membershipSaving (Buyer.mk 1 true)
            (eligibleSubtotal [LineItem.mk 1 100 1 true]))
          (bestPercSaving (eligibleSubtotal [LineItem.mk 1 100 1 true])
            [Coupon.mk 10 CouponType.percentage (some (4 / 5)) none none]) :=
  ⟨by norm_num [LineItem.Valid], by (simp [Coupon.Valid, optHolds, reduceCtorEq] <;> norm_num),
    (C1_mutual_exclusion [LineItem.mk 1 100 1 true] (Buyer.mk 1 true)
      [Coupon.mk 10 CouponType.percentage (some (4 / 5)) none none]
      (by norm_num [LineItem.Valid]) (by (simp [Coupon.Valid, optHolds, reduceCtorEq] <;> norm_num))).1⟩

/-- Claim C3: for every valid input the result satisfies
`finalTotal = subtotal − totalDiscount`, `finalTotal ≥ nonEligibleSubtotal ≥ 0`,
`totalDiscount ≤ eligibleSubtotal`, and every monetary field (subtotal,
eligible and non-eligible subtotals, total discount, final total, the
exclusive amount, every applied flat amount, every per-line discount) is
non-negative; in particular the accumulated flat discounts never drive the
eligible amount below zero. -/
theorem C3_invariants (lis : List LineItem) (b : Buyer) (cs : List Coupon)
    (hL : ∀ li ∈ lis, li.Valid) (hC : ∀ c ∈ cs, c.Valid) :
    (calcValid lis b cs).finalTotal =
        (calcValid lis b cs).subtotal - (calcValid lis b cs).totalDiscount ∧
      (calcValid lis b cs).nonEligibleSubtotal ≤ (calcValid lis b cs).finalTotal ∧
      0 ≤ (calcValid lis b cs).nonEligibleSubtotal ∧
      (calcValid lis b cs).totalDiscount ≤ (calcValid lis b cs).eligibleSubtotal ∧
      0 ≤ (calcValid lis b cs).subtotal ∧
      0 ≤ (calcValid lis b cs).eligibleSubtotal ∧
      0 ≤ (calcValid lis b cs).totalDiscount ∧
      0 ≤ (calcValid lis b cs).finalTotal ∧
      0 ≤ (calcValid lis b cs).exclusive.amount ∧
      (∀ a ∈ (calcValid lis b cs).appliedFlats, 0 ≤ a.amount) ∧
      (∀ en ∈ (calcValid lis b cs).lines, 0 ≤ en.lineDiscount) := by
  have he := eligibleSubtotal_nonneg hL
  have hne := nonEligibleSubtotal_nonneg hL
  have hsp := subtotal_split lis
  have hex := exclusive_amount_bounds (b := b) hC he
  have hbase : (0 : ℚ) ≤ eligibleSubtotal lis -
      (exclusiveChoice b (eligibleSubtotal lis) cs).amount := by linarith [hex.2]
  have hft := flatsTotal_bounds hbase hC
  have htot : 0 ≤ (calcValid lis b cs).totalDiscount := by
    rw [calcValid_totalDiscount]; linarith [hex.1, hft.1]
  refine ⟨rfl, ?_, ?_, ?_, ?_, ?_, htot, ?_, ?_, ?_, ?_⟩
  · rw [calcValid_finalTotal, calcValid_nonElig, calcValid_totalDiscount]
    linarith [hft.2]
  · rw [calcValid_nonElig]; exact hne
  · rw [calcValid_totalDiscount, calcValid_elig]; linarith [hft.2]
  · rw [calcValid_subtotal]; linarith
  · rw [calcValid_elig]; exact he
  · rw [calcValid_finalTotal, calcValid_totalDiscount]; linarith [hft.2]
  · rw [calcValid_exclusive]; exact hex.1
  · rw [calcValid_appliedFlats]
    unfold stackFlats
    apply applyFlatsAux_nonneg hbase
    intro f hf
    exact (flatCoupons_valid hC f ((sortFlats_perm _).mem_iff.mp hf)).2
  · rw [calcValid_lines]
    intro en hen
    rcases List.mem_map.mp hen with ⟨li, hli, rfl⟩
    unfold lineDiscountOf
    split
    · exact div_nonneg (mul_nonneg htot (lineSubtotal_nonneg (hL li hli))) he
    · exact le_refl 0

/-- Witness for C3 at a concrete valid input: one eligible and one
non-eligible line, a member buyer, a percentage coupon and a flat coupon. -/
theorem C3_invariants_witness :
    (∀ li ∈ [LineItem.mk 1 100 1 false, LineItem.mk 2 300 1 true], li.Valid) ∧
      (∀ c ∈ [Coupon.mk 10 CouponType.percentage (some (9 / 10)) none none,
        Coupon.mk 11 CouponType.flatThreshold none (some 250) (some 20)], c.Valid) ∧
      (calcValid [LineItem.mk 1 100 1 false, LineItem.mk 2 300 1 true] (Buyer.mk 1 false)
          [Coupon.mk 10 CouponType.percentage (some (9 / 10)) none none,
            Coupon.mk 11 CouponType.flatThreshold none (some 250) (some 20)]).nonEligibleSubtotal ≤
        (calcValid [LineItem.mk 1 100 1 false, LineItem.mk 2 300 1 true] (Buyer.mk 1 false)
          [Coupon.mk 10 CouponType.percentage (some (9 / 10)) none none,
            Coupon.mk 11 CouponType.flatThreshold none (some 250) (some 20)]).finalTotal :=
  ⟨by norm_num [LineItem.Valid], by (simp [Coupon.Valid, optHolds, reduceCtorEq] <;> norm_num),
    (C3_invariants [LineItem.mk 1 100 1 false, LineItem.mk 2 300 1 true] (Buyer.mk 1 false)
      [Coupon.mk 10 CouponType.percentage (some (9 / 10)) none none,
        Coupon.mk 11 CouponType.flatThreshold none (some 250) (some 20)]
      (by norm_num [LineItem.Valid]) (by (simp [Coupon.Valid, optHolds, reduceCtorEq] <;> norm_num))).2.1⟩

/-- Claim C4: for every valid input the membership saving equals
`eligibleSubtotal × 0.05` exactly when the buyer is a member and 0 otherwise,
and the membership discount never touches the non-eligible subtotal: the
result's non-eligible subtotal is the input's, the whole discount is bounded
by the eligible subtotal, and the final total covers the non-eligible
subtotal in full. -/
theorem C4_membership (lis : List LineItem) (b : Buyer) (cs : List Coupon)
    (hL : ∀ li ∈ lis, li.Valid) (hC : ∀ c ∈ cs, c.Valid) :
    (b.isMember = true →
        membershipSaving b (eligibleSubtotal lis) = eligibleSubtotal lis * (5 / 100)) ∧
      (b.isMember = false → membershipSaving b (eligibleSubtotal lis) = 0) ∧
      (calcValid lis b cs).nonEligibleSubtotal = nonEligibleSubtotal lis ∧
      (calcValid lis b cs).totalDiscount ≤ eligibleSubtotal lis ∧
      nonEligibleSubtotal lis ≤ (calcValid lis b cs).finalTotal := by
  have he := eligibleSubtotal_nonneg hL
  have hsp := subtotal_split lis
  have hex := exclusive_amount_bounds (b := b) hC he
  have hbase : (0 : ℚ) ≤ eligibleSubtotal lis -
      (exclusiveChoice b (eligibleSubtotal lis) cs).amount := by linarith [hex.2]
  have hft := flatsTotal_bounds hbase hC
  refine ⟨?_, ?_, rfl, ?_, ?_⟩
  · intro h; simp [membershipSaving, h]
  · intro h; simp [membershipSaving, h]
  · rw [calcValid_totalDiscount]; linarith [hft.2]
  · rw [calcValid_finalTotal, calcValid_totalDiscount]; linarith [hft.2]

/-- Witness for C4 at a concrete valid input: a member buyer with one
eligible 100-unit line and no coupons (membership saving 5 = 100 × 0.05). -/
theorem C4_membership_witness :
    (∀ li ∈ [LineItem.mk 1 100 1 true], li.Valid) ∧
      (∀ c ∈ ([] : List Coupon), c.Valid) ∧
      (Buyer.mk 1 true).isMember = true ∧
      membershipSaving (Buyer.mk 1 true) (eligibleSubtotal [LineItem.mk 1 100 1 true]) =
        eligibleSubtotal [LineItem.mk 1 100 1 true] * (5 / 100) :=
  ⟨by norm_num [LineItem.Valid], by norm_num, rfl,
    (C4_membership [LineItem.mk 1 100 1 true] (Buyer.mk 1 true) []
      (by norm_num [LineItem.Valid]) (by norm_num)).1 rfl⟩

/-- Claim C5: the Exclusive-Discount Selector is deterministic under ties —
the best-percentage candidate has the greatest saving and, among coupons with
equal greatest saving, the smallest identifier; when the membership saving is
at most (in particular exactly equal to) the candidate's saving, the coupon is
applied; when the membership saving is strictly larger, the membership
discount is applied. -/
theorem C5_deterministic_ties (b : Buyer) (e : ℚ) (cs : List Coupon) (c : Coupon)
    (h : bestPercCoupon e cs = some c) :
    c ∈ percCoupons cs ∧
      (∀ x ∈ percCoupons cs, percSaving e x ≤ percSaving e c) ∧
      (∀ x ∈ percCoupons cs, percSaving e x = percSaving e c → c.id ≤ x.id) ∧
      (membershipSaving b e ≤ percSaving e c →
        exclusiveChoice b e cs = ExclusiveChoice.coupon c.id (percSaving e c)) ∧
      (percSaving e c < membershipSaving b e →
        exclusiveChoice b e cs = ExclusiveChoice.membership (membershipSaving b e)) := by
  have hspec := bestPercCoupon_spec h
  refine ⟨hspec.1, fun x hx => (hspec.2 x hx).1, fun x hx => (hspec.2 x hx).2, ?_, ?_⟩
  · intro hle
    unfold exclusiveChoice
    rw [h]
    dsimp only
    rw [if_neg (not_lt.mpr hle)]
  · intro hlt
    unfold exclusiveChoice
    rw [h]
    dsimp only
    rw [if_pos hlt]

/-- Witness for C5 at a concrete input: two percentage coupons with the same
rate 0.95 on an eligible subtotal of 100 (both save 5) and a member buyer
whose membership saving is exactly 5 — the candidate is the coupon with the
smaller id 10, and on the exact tie the coupon, not the membership discount,
is applied. -/
theorem C5_deterministic_ties_witness :
    bestPercCoupon 100 [Coupon.mk 10 CouponType.percentage (some (19 / 20)) none none,
        Coupon.mk 11 CouponType.percentage (some (19 / 20)) none none] =
      some (Coupon.mk 10 CouponType.percentage (some (19 / 20)) none none) ∧
    membershipSaving (Buyer.mk 1 true) 100 ≤
      percSaving 100 (Coupon.mk 10 CouponType.percentage (some (19 / 20)) none none) ∧
    exclusiveChoice (Buyer.mk 1 true) 100
        [Coupon.mk 10 CouponType.percentage (some (19 / 20)) none none,
          Coupon.mk 11 CouponType.percentage (some (19 / 20)) none none] =
      ExclusiveChoice.coupon (Coupon.mk 10 CouponType.percentage (some (19 / 20)) none none).id
        (percSaving 100 (Coupon.mk 10 CouponType.percentage (some (19 / 20)) none none)) :=
  ⟨by norm_num [bestPercCoupon, percCoupons, bestPercAux, percSaving, List.filter_cons, CouponType.isPercentage],
    by norm_num [membershipSaving, percSaving],
    (C5_deterministic_ties (Buyer.mk 1 true) 100
        [Coupon.mk 10 CouponType.percentage (some (19 / 20)) none none,
          Coupon.mk 11 CouponType.percentage (some (19 / 20)) none none]
        (Coupon.mk 10 CouponType.percentage (some (19 / 20)) none none)
        (by norm_num [bestPercCoupon, percCoupons, bestPercAux, percSaving,
          List.filter_cons, CouponType.isPercentage])).2.2.2.1
      (by norm_num [membershipSaving, percSaving])⟩

/-- Claim C2 (amended): the Stacking Engine evaluates exactly the
FlatThreshold coupons, sorted ascending by threshold with ties broken by
coupon id; a coupon yields an applied record precisely when
`eligibleAfterExclusive ≥ threshold`, tested against the same fixed base (a
coupon whose threshold exceeds the base contributes zero: dropping the
non-qualifying coupons leaves the output unchanged); the accumulated flat
total is `min base (sum of qualifying amounts)`, and whenever the qualifying
amounts sum to at most the base — i.e. whenever the non-negativity clamp does
not bind — every qualifying coupon contributes exactly its amount. -/
theorem C2_stacking_amended (base : ℚ) (cs : List Coupon)
    (hbase : 0 ≤ base) (hC : ∀ c ∈ cs, c.Valid) :
    (sortFlats (flatCoupons cs)).Perm (flatCoupons cs) ∧
      List.Sorted flatLE (sortFlats (flatCoupons cs)) ∧
      (stackFlats base cs).map AppliedFlat.id = (qualifyingFlats base cs).map FlatInfo.id ∧
      flatsTotal (stackFlats base cs) =
        min base (((qualifyingFlats base cs).map FlatInfo.amount).sum) ∧
      (((qualifyingFlats base cs).map FlatInfo.amount).sum ≤ base →
        stackFlats base cs =
          (qualifyingFlats base cs).map (fun f => AppliedFlat.mk f.id f.amount)) ∧
      applyFlatsAux base base (qualifyingFlats base cs) = stackFlats base cs := by
  have hA : ∀ f ∈ sortFlats (flatCoupons cs), 0 ≤ f.amount := fun f hf =>
    (flatCoupons_valid hC f ((sortFlats_perm _).mem_iff.mp hf)).2
  refine ⟨sortFlats_perm _, sortFlats_sorted _, ?_, ?_, ?_, ?_⟩
  · unfold stackFlats qualifyingFlats
    exact applyFlatsAux_ids base base _
  · unfold stackFlats qualifyingFlats
    exact applyFlatsAux_total hbase hA
  · intro hsum
    unfold stackFlats qualifyingFlats
    unfold qualifyingFlats at hsum
    exact applyFlatsAux_noclamp hA hsum
  · unfold stackFlats qualifyingFlats
    exact applyFlatsAux_filter base base _

/-- Witness for C2 (amended) at a concrete input: base 250 and the two flat
coupons {threshold 100, amount 10} and {threshold 200, amount 30}; both
qualify and the flat total is 40 = min 250 (10 + 30). -/
theorem C2_stacking_amended_witness :
    (0 : ℚ) ≤ 250 ∧
      (∀ c ∈ [Coupon.mk 10 CouponType.flatThreshold none (some 100) (some 10),
        Coupon.mk 11 CouponType.flatThreshold none (some 200) (some 30)], c.Valid) ∧
      flatsTotal (stackFlats 250
          [Coupon.mk 10 CouponType.flatThreshold none (some 100) (some 10),
            Coupon.mk 11 CouponType.flatThreshold none (some 200) (some 30)]) =
        min 250 (((qualifyingFlats 250
          [Coupon.mk 10 CouponType.flatThreshold none (some 100) (some 10),
            Coupon.mk 11 CouponType.flatThreshold none (some 200) (some 30)]).map
              FlatInfo.amount).sum) :=
  ⟨by norm_num, by (simp [Coupon.Valid, optHolds, reduceCtorEq] <;> norm_num),
    (C2_stacking_amended 250
      [Coupon.mk 10 CouponType.flatThreshold none (some 100) (some 10),
        Coupon.mk 11 CouponType.flatThreshold none (some 200) (some 30)]
      (by norm_num)
      (by (simp [Coupon.Valid, optHolds, reduceCtorEq] <;> norm_num))).2.2.2.1⟩

/-- Counterexample to Claim C2 as stated: with one eligible 100-unit line, a
non-member buyer and the two flat coupons {threshold 50, amount 80} and
{threshold 60, amount 80}, the base `eligibleAfterExclusive` is 100, coupon 2
qualifies (60 ≤ 100), yet its applied record carries 20 — not its discount
amount 80 — because the clamp caps it at the remaining eligible balance. -/
theorem C2_counterexample :
    allValid [LineItem.mk 1 100 1 true]
        [Coupon.mk 1 CouponType.flatThreshold none (some 50) (some 80),
          Coupon.mk 2 CouponType.flatThreshold none (some 60) (some 80)] ∧
      (calcValid [LineItem.mk 1 100 1 true] (Buyer.mk 1 false)
            [Coupon.mk 1 CouponType.flatThreshold none (some 50) (some 80),
              Coupon.mk 2 CouponType.flatThreshold none (some 60) (some 80)]).eligibleSubtotal -
          (calcValid [LineItem.mk 1 100 1 true] (Buyer.mk 1 false)
            [Coupon.mk 1 CouponType.flatThreshold none (some 50) (some 80),
              Coupon.mk 2 CouponType.flatThreshold none (some 60) (some 80)]).exclusive.amount =
        100 ∧
      (60 : ℚ) ≤ 100 ∧
      (calcValid [LineItem.mk 1 100 1 true] (Buyer.mk 1 false)
          [Coupon.mk 1 CouponType.flatThreshold none (some 50) (some 80),
            Coupon.mk 2 CouponType.flatThreshold none (some 60) (some 80)]).appliedFlats =
        [AppliedFlat.mk 1 80, AppliedFlat.mk 2 20] ∧
      (20 : ℚ) ≠ 80 := by
  refine ⟨?_, ?_, by norm_num, ?_, by norm_num⟩
  · constructor
    · intro li hli
      fin_cases hli
      constructor <;> norm_num [LineItem.Valid]
    · intro c hc
      fin_cases hc <;> (simp [Coupon.Valid, optHolds, reduceCtorEq] <;> norm_num)
  · rw [calcValid_elig, calcValid_exclusive]
    norm_num [eligibleSubtotal, LineItem.lineSubtotal, exclusiveChoice, bestPercCoupon,
      percCoupons, List.filter_cons, ExclusiveChoice.amount, membershipSaving, reduceCtorEq,
      CouponType.isPercentage]
  · rw [calcValid_appliedFlats]
    norm_num [eligibleSubtotal, LineItem.lineSubtotal, exclusiveChoice, bestPercCoupon,
      percCoupons, List.filter_cons, ExclusiveChoice.amount, stackFlats, flatCoupons,
      sortFlats, applyFlatsAux, List.filterMap, List.insertionSort, List.orderedInsert,
      flatLE, min_def, reduceCtorEq, CouponType.isPercentage]

/-- Claim C6: `calculate` succeeds exactly when every input entity is valid;
on any invalid input it fails with a `ValidationError` naming an offending
entity's id and field and produces no result; validation is fail-fast — the
first invalid line item (lines are checked before coupons, in order)
determines the error, and likewise the first invalid coupon once all lines
are valid. -/
theorem C6_validation (lis : List LineItem) (b : Buyer) (cs : List Coupon) :
    (calculate lis b cs = Except.ok (calcValid lis b cs) ↔ allValid lis cs) ∧
      ((∃ r, calculate lis b cs = Except.ok r) ↔ allValid lis cs) ∧
      (¬allValid lis cs → ∃ e, calculate lis b cs = Except.error e ∧
        ((∃ li ∈ lis, ¬li.Valid ∧ e.entityId = li.id ∧ validateLineItem li = some e) ∨
          (∃ c ∈ cs, ¬c.Valid ∧ e.entityId = c.id ∧ validateCoupon c = some e))) ∧
      (∀ pre li post, lis = pre ++ li :: post → (∀ x ∈ pre, x.Valid) → ¬li.Valid →
        ∃ e, validateLineItem li = some e ∧ calculate lis b cs = Except.error e) ∧
      (∀ pre c post, cs = pre ++ c :: post → (∀ x ∈ lis, x.Valid) → (∀ x ∈ pre, x.Valid) →
        ¬c.Valid → ∃ e, validateCoupon c = some e ∧ calculate lis b cs = Except.error e) := by
  have hiff := validateAll_eq_none_iff lis cs
  refine ⟨?_, ?_, ?_, ?_, ?_⟩
  · rcases h : validateAll lis cs with _ | e
    · constructor
      · intro _; exact hiff.mp h
      · intro _; unfold calculate; rw [h]
    · constructor
      · intro hok
        unfold calculate at hok
        rw [h] at hok
        exact absurd hok (by simp)
      · intro hv
        rw [hiff.mpr hv] at h
        exact absurd h (by simp)
  · constructor
    · rintro ⟨r, hr⟩
      rcases h : validateAll lis cs with _ | e
      · exact hiff.mp h
      · unfold calculate at hr
        rw [h] at hr
        exact absurd hr (by simp)
    · intro hv
      exact ⟨calcValid lis b cs, by unfold calculate; rw [hiff.mpr hv]⟩
  · intro hnot
    rcases h : validateAll lis cs with _ | e
    · exact absurd (hiff.mp h) hnot
    · refine ⟨e, by unfold calculate; rw [h], ?_⟩
      have hmem : e ∈ lis.filterMap validateLineItem ++ cs.filterMap validateCoupon := by
        apply List.mem_of_mem_head?
        unfold validateAll at h
        rw [h]
        rfl
      rcases List.mem_append.mp hmem with hm | hm
      · rcases List.mem_filterMap.mp hm with ⟨li, hli, hv⟩
        have hsome := validateLineItem_some hv
        exact Or.inl ⟨li, hli, hsome.1, hsome.2, hv⟩
      · rcases List.mem_filterMap.mp hm with ⟨c, hc, hv⟩
        have hsome := validateCoupon_some hv
        exact Or.inr ⟨c, hc, hsome.1, hsome.2, hv⟩
  · rintro pre li post rfl hpre hbad
    rcases hv : validateLineItem li with _ | e
    · exact absurd ((validateLineItem_eq_none_iff li).mp hv) hbad
    · refine ⟨e, rfl, ?_⟩
      have hpre0 : pre.filterMap validateLineItem = [] :=
        List.filterMap_eq_nil_iff.mpr
          (fun x hx => (validateLineItem_eq_none_iff x).mpr (hpre x hx))
      have hAll : validateAll (pre ++ li :: post) cs = some e := by
        unfold validateAll
        rw [List.filterMap_append, hpre0, List.nil_append]
        simp [List.filterMap_cons, hv]
      unfold calculate
      rw [hAll]
  · rintro pre c post rfl hlis hpre hbad
    rcases hv : validateCoupon c with _ | e
    · exact absurd ((validateCoupon_eq_none_iff c).mp hv) hbad
    · refine ⟨e, rfl, ?_⟩
      have hlis0 : lis.filterMap validateLineItem = [] :=
        List.filterMap_eq_nil_iff.mpr
          (fun x hx => (validateLineItem_eq_none_iff x).mpr (hlis x hx))
      have hpre0 : pre.filterMap validateCoupon = [] :=
        List.filterMap_eq_nil_iff.mpr
          (fun x hx => (validateCoupon_eq_none_iff x).mpr (hpre x hx))
      have hAll : validateAll lis (pre ++ c :: post) = some e := by
        unfold validateAll
        rw [hlis0, List.nil_append, List.filterMap_append, hpre0, List.nil_append]
        simp [List.filterMap_cons, hv]
      unfold calculate
      rw [hAll]

/-- Witness for C6 at a concrete invalid input: a line item with price −5 is
rejected with the error naming entity 1 and field price, before any
arithmetic. -/
theorem C6_validation_witness :
    ¬(LineItem.mk 1 (-5) 1 true).Valid ∧
      calculate [LineItem.mk 1 (-5) 1 true] (Buyer.mk 1 true) [] =
        Except.error (ValidationError.mk 1 "price") := by
  have hbad : ¬(LineItem.mk 1 (-5) 1 true).Valid := by
    intro hv
    have := hv.1
    norm_num at this
  refine ⟨hbad, ?_⟩
  obtain ⟨e, he, hc⟩ :=
    (C6_validation [LineItem.mk 1 (-5) 1 true] (Buyer.mk 1 true) []).2.2.2.1
      [] (LineItem.mk 1 (-5) 1 true) [] rfl (by simp) hbad
  have heq : validateLineItem (LineItem.mk 1 (-5) 1 true) =
      some (ValidationError.mk 1 "price") := by
    norm_num [validateLineItem]
  rw [heq] at he
  injection he with he'
  rw [he']
  exact hc

theorem roundHalfUp2_intCast_div (n : ℤ) :
    roundHalfUp2 ((n : ℚ) / 100) = (n : ℚ) / 100 := by
  unfold roundHalfUp2
  rw [div_mul_cancel₀ _ (by norm_num : (100 : ℚ) ≠ 0), add_comm, Int.floor_add_int]
  norm_num

theorem roundHalfUp2_idem (q : ℚ) :
    roundHalfUp2 (roundHalfUp2 q) = roundHalfUp2 q :=
  roundHalfUp2_intCast_div ⌊q * 100 + 1 / 2⌋

theorem roundHalfUp2_half_up (n : ℤ) :
    roundHalfUp2 ((n : ℚ) / 100 + 1 / 200) = ((n : ℚ) + 1) / 100 := by
  unfold roundHalfUp2
  have h : ((n : ℚ) / 100 + 1 / 200) * 100 + 1 / 2 = (n : ℚ) + 1 := by ring
  rw [h]
  rw [show ((n : ℚ) + 1) = ((n + 1 : ℤ) : ℚ) from by push_cast; ring, Int.floor_intCast]

theorem roundHalfUp2_bounds (q : ℚ) :
    q - 1 / 200 < roundHalfUp2 q ∧ roundHalfUp2 q ≤ q + 1 / 200 := by
  unfold roundHalfUp2
  have h1 : (↑⌊q * 100 + 1 / 2⌋ : ℚ) ≤ q * 100 + 1 / 2 := Int.floor_le _
  have h2 : q * 100 + 1 / 2 - 1 < (↑⌊q * 100 + 1 / 2⌋ : ℚ) := Int.sub_one_lt_floor _
  constructor <;> [linarith; linarith]

/-- Claim C7: every reported amount is a single round-half-up-to-2-digits of
the corresponding amount computed by the exact, unrounded pipeline (subtotal,
total discount and final total are exact sums and differences of exact
intermediate quantities), and the rounding function is genuinely
round-half-up at currency precision: it fixes every 2-decimal value (so the
one application is exact on already-rounded data, and applying it twice
changes nothing), it rounds an exact half-cent up, and it moves any value by
at most half a cent. -/
theorem C7_single_rounding (lis : List LineItem) (b : Buyer) (cs : List Coupon) :
    (reportOf (calcValid lis b cs)).subtotal = roundHalfUp2 (orderSubtotal lis) ∧
      (reportOf (calcValid lis b cs)).totalDiscount =
        roundHalfUp2 ((exclusiveChoice b (eligibleSubtotal lis) cs).amount +
          flatsTotal (stackFlats (eligibleSubtotal lis -
            (exclusiveChoice b (eligibleSubtotal lis) cs).amount) cs)) ∧
      (reportOf (calcValid lis b cs)).finalTotal =
        roundHalfUp2 (orderSubtotal lis -
          ((exclusiveChoice b (eligibleSubtotal lis) cs).amount +
            flatsTotal (stackFlats (eligibleSubtotal lis -
              (exclusiveChoice b (eligibleSubtotal lis) cs).amount) cs))) ∧
      (∀ n : ℤ, roundHalfUp2 ((n : ℚ) / 100) = (n : ℚ) / 100) ∧
      (∀ q : ℚ, roundHalfUp2 (roundHalfUp2 q) = roundHalfUp2 q) ∧
      (∀ n : ℤ, roundHalfUp2 ((n : ℚ) / 100 + 1 / 200) = ((n : ℚ) + 1) / 100) ∧
      (∀ q : ℚ, q - 1 / 200 < roundHalfUp2 q ∧ roundHalfUp2 q ≤ q + 1 / 200) :=
  ⟨rfl, rfl, rfl, roundHalfUp2_intCast_div, roundHalfUp2_idem, roundHalfUp2_half_up,
    roundHalfUp2_bounds⟩

/-- Claim C9 (amended): toggling a line's eligibility flag leaves the order
subtotal unchanged and moves exactly that line's subtotal between
`eligibleSubtotal` and `nonEligibleSubtotal`; every discount quantity
(exclusive choice, applied flat records, total discount) depends on the line
items only through `eligibleSubtotal` — so the discount computations are
unchanged whenever the eligible subtotal is, though their amounts do follow
the eligible subtotal when it moves. -/
theorem C9_eligibility_amended (pre post : List LineItem) (li : LineItem) (b : Buyer)
    (cs : List Coupon) :
    orderSubtotal (pre ++ toggleEligibility li :: post) =
        orderSubtotal (pre ++ li :: post) ∧
      (li.eligible = true →
        eligibleSubtotal (pre ++ toggleEligibility li :: post) =
            eligibleSubtotal (pre ++ li :: post) - li.lineSubtotal ∧
          nonEligibleSubtotal (pre ++ toggleEligibility li :: post) =
            nonEligibleSubtotal (pre ++ li :: post) + li.lineSubtotal) ∧
      (li.eligible = false →
        eligibleSubtotal (pre ++ toggleEligibility li :: post) =
            eligibleSubtotal (pre ++ li :: post) + li.lineSubtotal ∧
          nonEligibleSubtotal (pre ++ toggleEligibility li :: post) =
            nonEligibleSubtotal (pre ++ li :: post) - li.lineSubtotal) ∧
      (∀ lis1 lis2 : List LineItem, eligibleSubtotal lis1 = eligibleSubtotal lis2 →
        (calcValid lis1 b cs).exclusive = (calcValid lis2 b cs).exclusive ∧
          (calcValid lis1 b cs).appliedFlats = (calcValid lis2 b cs).appliedFlats ∧
          (calcValid lis1 b cs).totalDiscount = (calcValid lis2 b cs).totalDiscount) := by
  refine ⟨?_, ?_, ?_, ?_⟩
  · rw [orderSubtotal_append, orderSubtotal_append, orderSubtotal_cons, orderSubtotal_cons,
      toggleEligibility_lineSubtotal]
  · intro h
    constructor <;>
      simp [eligibleSubtotal_append, eligibleSubtotal_cons, nonEligibleSubtotal_append,
        nonEligibleSubtotal_cons, toggleEligibility, LineItem.lineSubtotal, h] <;>
      ring
  · intro h
    constructor <;>
      simp [eligibleSubtotal_append, eligibleSubtotal_cons, nonEligibleSubtotal_append,
        nonEligibleSubtotal_cons, toggleEligibility, LineItem.lineSubtotal, h] <;>
      ring
  · intro lis1 lis2 h
    refine ⟨?_, ?_, ?_⟩
    · rw [calcValid_exclusive, calcValid_exclusive, h]
    · rw [calcValid_appliedFlats, calcValid_appliedFlats, h]
    · rw [calcValid_totalDiscount, calcValid_totalDiscount, h]

/-- Witness for C9 (amended) at a concrete input: toggling the single
eligible 100-unit line moves its subtotal out of the eligible bucket. -/
theorem C9_eligibility_amended_witness :
    (LineItem.mk 1 100 1 true).eligible = true ∧
      eligibleSubtotal ([] ++ toggleEligibility (LineItem.mk 1 100 1 true) :: []) =
        eligibleSubtotal ([] ++ LineItem.mk 1 100 1 true :: []) -
          (LineItem.mk 1 100 1 true).lineSubtotal :=
  ⟨rfl, ((C9_eligibility_amended [] [] (LineItem.mk 1 100 1 true) (Buyer.mk 1 true) []).2.1
    rfl).1⟩

/-- Counterexample to Claim C9 as stated: toggling the eligibility flag of
the single 100-unit line of a member's order changes the total discount from
5 to 0 — the discount computation itself changes, not merely the split of the
line's subtotal between the eligible and non-eligible buckets. -/
theorem C9_counterexample :
    toggleEligibility (LineItem.mk 1 100 1 true) = LineItem.mk 1 100 1 false ∧
      (calcValid [LineItem.mk 1 100 1 true] (Buyer.mk 1 true) []).totalDiscount = 5 ∧
      (calcValid [LineItem.mk 1 100 1 false] (Buyer.mk 1 true) []).totalDiscount = 0 ∧
      (5 : ℚ) ≠ 0 := by
  refine ⟨rfl, ?_, ?_, by norm_num⟩
  · rw [calcValid_totalDiscount]
    norm_num [eligibleSubtotal, LineItem.lineSubtotal, exclusiveChoice, bestPercCoupon,
      percCoupons, membershipSaving, ExclusiveChoice.amount, stackFlats, flatCoupons,
      sortFlats, applyFlatsAux, flatsTotal]
  · rw [calcValid_totalDiscount]
    norm_num [eligibleSubtotal, LineItem.lineSubtotal, exclusiveChoice, bestPercCoupon,
      percCoupons, membershipSaving, ExclusiveChoice.amount, stackFlats, flatCoupons,
      sortFlats, applyFlatsAux, flatsTotal]

/-- Claim C10: the total discount is attributed to lines pro rata — an
eligible line's per-line discount is
`totalDiscount × lineSubtotal ÷ eligibleSubtotal`, a non-eligible line
receives zero (it is charged at full original price), and the per-line
attributed discounts sum exactly to the total discount. -/
theorem C10_pro_rata (lis : List LineItem) (b : Buyer) (cs : List Coupon)
    (hL : ∀ li ∈ lis, li.Valid) (hC : ∀ c ∈ cs, c.Valid) :
    (∀ en ∈ (calcValid lis b cs).lines, en.item.eligible = false → en.lineDiscount = 0) ∧
      (∀ en ∈ (calcValid lis b cs).lines, en.item.eligible = true →
        en.lineDiscount = (calcValid lis b cs).totalDiscount * en.item.lineSubtotal /
          (calcValid lis b cs).eligibleSubtotal) ∧
      ((calcValid lis b cs).lines.map LineEntry.lineDiscount).sum =
        (calcValid lis b cs).totalDiscount := by
  refine ⟨?_, ?_, ?_⟩
  · rw [calcValid_lines]
    intro en hen h
    rcases List.mem_map.mp hen with ⟨li, hli, rfl⟩
    simp only at h
    simp [lineDiscountOf, h]
  · rw [calcValid_lines]
    intro en hen h
    rcases List.mem_map.mp hen with ⟨li, hli, rfl⟩
    simp only at h
    simp [lineDiscountOf, h, calcValid_elig]
  · rw [calcValid_lines, List.map_map]
    have hcomp : (LineEntry.lineDiscount ∘ fun li =>
        LineEntry.mk li (lineDiscountOf (calcValid lis b cs).totalDiscount
          (eligibleSubtotal lis) li)) =
        fun li => lineDiscountOf (calcValid lis b cs).totalDiscount
          (eligibleSubtotal lis) li := rfl
    rw [hcomp, sum_lineDiscountOf]
    by_cases h0 : eligibleSubtotal lis = 0
    · rw [h0, totalDiscount_elig_zero hC h0]
      norm_num
    · rw [mul_div_assoc, div_self h0, mul_one]

/-- Witness for C10 at a concrete valid input: one non-eligible 100-unit line
and one eligible 300-unit line with a percentage and a flat coupon — the
per-line discounts sum to the total discount. -/
theorem C10_pro_rata_witness :
    (∀ li ∈ [LineItem.mk 1 100 1 false, LineItem.mk 2 300 1 true], li.Valid) ∧
      (∀ c ∈ [Coupon.mk 10 CouponType.percentage (some (9 / 10)) none none,
        Coupon.mk 11 CouponType.flatThreshold none (some 250) (some 20)], c.Valid) ∧
      ((calcValid [LineItem.mk 1 100 1 false, LineItem.mk 2 300 1 true] (Buyer.mk 1 false)
          [Coupon.mk 10 CouponType.percentage (some (9 / 10)) none none,
            Coupon.mk 11 CouponType.flatThreshold none (some 250) (some 20)]).lines.map
              LineEntry.lineDiscount).sum =
        (calcValid [LineItem.mk 1 100 1 false, LineItem.mk 2 300 1 true] (Buyer.mk 1 false)
          [Coupon.mk 10 CouponType.percentage (some (9 / 10)) none none,
            Coupon.mk 11 CouponType.flatThreshold none (some 250) (some 20)]).totalDiscount :=
  ⟨by norm_num [LineItem.Valid], by (simp [Coupon.Valid, optHolds, reduceCtorEq] <;> norm_num),
    (C10_pro_rata [LineItem.mk 1 100 1 false, LineItem.mk 2 300 1 true] (Buyer.mk 1 false)
      [Coupon.mk 10 CouponType.percentage (some (9 / 10)) none none,
        Coupon.mk 11 CouponType.flatThreshold none (some 250) (some 20)]
      (by norm_num [LineItem.Valid])
      (by (simp [Coupon.Valid, optHolds, reduceCtorEq] <;> norm_num))).2.2⟩

end OrderCalc
